import Mathlib

/-!
HttpRequestWrapper: the scripting-visible wrapper of a native HTTP request.

A shallow embedding of `src/HttpRequestWrapper.h`.  The wrapper exposes a
stack-allocated `uWS::HttpRequest` to script code through seven accessors.
Every accessor first unwraps the native pointer held in internal field 0 of
the wrapper object (`getHttpRequest`), and only then touches the request.

The embedding is by explicit state passing: a `World` holds the internal
fields of the wrapper objects, the native requests, the pending exception of
the isolate, the state of the script, and a trace of every native access and
every callback invocation.
-/

namespace HttpRequestWrapper

/-! ## Strings -/

/-- One `char` of a `std::string_view`, read as `uint8_t`. -/
abbrev Byte := Fin 256

/-- Contents of a `std::string_view`: pointer and length, as the bytes in between. -/
abbrev Bytes := List Byte

/-- A script string: its sequence of UTF-16 code units. -/
abbrev JSString := List Nat

/-- State of the UTF-8 decoder of `String::NewFromUtf8`: either between two
characters, or inside a multi-byte character with `need + 1` continuation
bytes outstanding, the next of which has to lie in `[lo, hi]`, and the bits
`acc` collected so far. -/
inductive Utf8State where
  | accept
  | inside (need lo hi acc : Nat)
deriving DecidableEq, Repr

/-- The replacement character U+FFFD the decoder emits for every ill-formed
subsequence. -/
def kBadChar : Nat := 0xFFFD

/-- First byte of a character: emits the character for ASCII, opens a multi-byte
character for a lead byte, and emits U+FFFD for a byte that cannot start a
character (a continuation byte, the overlong leads C0 and C1, and F5..FF). -/
def utf8Start (b : Nat) : List Nat × Utf8State :=
  if b < 0x80 then ([b], .accept)
  else if 0xC2 ≤ b ∧ b ≤ 0xDF then ([], .inside 0 0x80 0xBF (b % 32))
  else if b = 0xE0 then ([], .inside 1 0xA0 0xBF 0)
  else if b = 0xED then ([], .inside 1 0x80 0x9F 13)
  else if 0xE1 ≤ b ∧ b ≤ 0xEF then ([], .inside 1 0x80 0xBF (b % 16))
  else if b = 0xF0 then ([], .inside 2 0x90 0xBF 0)
  else if 0xF1 ≤ b ∧ b ≤ 0xF3 then ([], .inside 2 0x80 0xBF (b % 8))
  else if b = 0xF4 then ([], .inside 2 0x80 0x8F 4)
  else ([kBadChar], .accept)

/-- One step of the decoder.  Inside a character an acceptable continuation
byte contributes its low six bits; any other byte ends the character with
U+FFFD and is then looked at again as a first byte. -/
def utf8Step : Utf8State → Nat → List Nat × Utf8State
  | .accept, b => utf8Start b
  | .inside need lo hi acc, b =>
    if lo ≤ b ∧ b ≤ hi then
      match need with
      | 0 => ([acc * 64 + b % 64], .accept)
      | n + 1 => ([], .inside n 0x80 0xBF (acc * 64 + b % 64))
    else
      let r := utf8Start b
      (kBadChar :: r.1, r.2)

/-- The decoder run over a byte sequence; a character still open at the end of
the input gives one more U+FFFD. -/
def utf8Decode : Utf8State → List Nat → List Nat
  | .accept, [] => []
  | .inside _ _ _ _, [] => [kBadChar]
  | st, b :: bs => (utf8Step st b).1 ++ utf8Decode (utf8Step st b).2 bs

/-- UTF-16 code units of one code point: itself up to U+FFFF, a lead and a
trail surrogate above. -/
def utf16Units (c : Nat) : List Nat :=
  if c ≤ 0xFFFF then [c] else [0xD7C0 + c / 1024, 0xDC00 + c % 1024]

/-- Model of `String::NewFromUtf8(isolate, data, NewStringType::kNormal, length)`
followed by `ToLocalChecked()`: the bytes are decoded as UTF-8, every
ill-formed subsequence becoming U+FFFD, into a fresh script string.  (The
length limit of script strings, far above what a request can hold, is left
out.) -/
def NewFromUtf8 (data : Bytes) : JSString :=
  (utf8Decode .accept (data.map Fin.val)).flatMap utf16Units

/-- Model of `String::NewFromOneByte(isolate, data, NewStringType::kNormal, length)`
followed by `ToLocalChecked()`: every byte becomes the code unit of the same
value (Latin-1). -/
def NewFromOneByte (data : Bytes) : JSString :=
  data.map Fin.val

/-- UTF-8 bytes of one code point, as numbers. -/
def utf8Units (c : Nat) : List Nat :=
  if c < 0x80 then [c]
  else if c < 0x800 then [0xC0 + c / 64, 0x80 + c % 64]
  else if c < 0x10000 then [0xE0 + c / 4096, 0x80 + c / 64 % 64, 0x80 + c % 64]
  else [0xF0 + c / 262144, 0x80 + c / 4096 % 64, 0x80 + c / 64 % 64, 0x80 + c % 64]

/-- Whether a code unit is a lead surrogate. -/
def isLead (u : Nat) : Bool := 0xD800 ≤ u && u ≤ 0xDBFF

/-- Whether a code unit is a trail surrogate. -/
def isTrail (u : Nat) : Bool := 0xDC00 ≤ u && u ≤ 0xDFFF

/-- Code points of a script string, read with at most one lead surrogate held
back: a lead surrogate followed by a trail surrogate is one supplementary code
point, a surrogate on its own is U+FFFD. -/
def utf16Decode : Option Nat → JSString → List Nat
  | none, [] => []
  | some _, [] => [kBadChar]
  | none, u :: rest =>
    if isLead u then utf16Decode (some u) rest
    else (if isTrail u then kBadChar else u) :: utf16Decode none rest
  | some l, u :: rest =>
    if isTrail u then
      (0x10000 + (l - 0xD800) * 1024 + (u - 0xDC00)) :: utf16Decode none rest
    else if isLead u then kBadChar :: utf16Decode (some u) rest
    else kBadChar :: u :: utf16Decode none rest

/-- UTF-8 bytes of a sequence of code points. -/
def utf8Bytes (t : List Nat) : Bytes :=
  (t.flatMap utf8Units).map (Fin.ofNat)

/-- Encoding of a script string to bytes (UTF-8), the direction opposite to
`NewFromUtf8`. -/
def encodeUtf8 (s : JSString) : Bytes :=
  utf8Bytes (utf16Decode none s)

/-- A Unicode scalar value: a code point up to U+10FFFF that is no surrogate. -/
def IsScalar (c : Nat) : Prop :=
  c < 0x110000 ∧ ¬ (0xD800 ≤ c ∧ c ≤ 0xDFFF)

instance (c : Nat) : Decidable (IsScalar c) := by
  unfold IsScalar; infer_instance

/-- Well-formed UTF-8: the encoding of a sequence of Unicode scalar values. -/
def ValidUtf8 (data : Bytes) : Prop :=
  ∃ t : List Nat, (∀ c ∈ t, IsScalar c) ∧ data = utf8Bytes t

/-- Bytes of a literal, for worked examples. -/
def ascii (s : String) : Bytes :=
  utf8Bytes (s.toList.map Char.toNat)

/-- Script string of a literal, for worked examples. -/
def text (s : String) : JSString :=
  (s.toList.map Char.toNat).flatMap utf16Units

/-! ## The native request and the script values -/

/-- The `uWS::HttpRequest` as far as the wrapper reads or writes it: what
`getMethod()`, `getUrl()` and `getQuery()` return, the headers in the order the
range-for over the request visits them, the path parameters, and the yield
flag written by `setYield`. -/
structure HttpRequest where
  method : Bytes
  url : Bytes
  query : Bytes
  headers : List (Bytes × Bytes)
  parameters : List Bytes
  yield : Bool
deriving DecidableEq, Repr

/-- What can be pending in the isolate: an `Error` object made by
`v8::Exception::Error` with its message, the error raised for an argument that
cannot be converted, the refusal of the runtime to call what is no function,
or a value thrown by script code (identified by a number). -/
inductive Exception where
  | Error (message : String)
  | MarshalError
  | NotCallable
  | thrown (id : Nat)
deriving DecidableEq, Repr

/-- The error `getHttpRequest` throws on a null internal field. -/
def ExpiredRequestError : Exception :=
  Exception.Error ("Using uWS.HttpRequest past its request handler return is forbidden (it is stack allocated).")

/-- Script values an accessor can be handed.  A function is given by what a
call with two strings does to the state `σ` of the script and by the value
it throws, if any; its result is not represented since `req_forEach` drops it. -/
inductive Value (σ : Type) where
  | undefined
  | boolean (b : Bool)
  | number (n : Int)
  | string (s : JSString)
  | function (f : σ → JSString → JSString → σ × Option Exception)
  | object (id : Nat)

/-- Ghost record of what an accessor did: each call into the native request,
and each invocation of a script callback with its two arguments and the value
it threw. -/
inductive Access where
  | getMethod (req : Nat)
  | getUrl (req : Nat)
  | getQuery (req : Nat)
  | getQueryKey (req : Nat) (key : Bytes)
  | getHeader (req : Nat) (name : Bytes)
  | getParameter (req : Nat) (index : Int)
  | setYield (req : Nat) (yield : Bool)
  | iterate (req : Nat)
  | call (key value : JSString) (raised : Option Exception)
deriving DecidableEq, Repr

/-- Everything an accessor can read or change: internal field 0 of every
wrapper object (`none` is the null pointer, `some a` the address of a native
request), the native requests by address, the exception pending in the
isolate, the state of the script, and the trace. -/
structure World (σ : Type) where
  internalField : Nat → Option Nat
  requests : Nat → HttpRequest
  exception : Option Exception
  script : σ
  trace : List Access

/-- The `FunctionCallbackInfo` of one call: the wrapper object the accessor
was called on and the arguments. -/
structure FunctionCallbackInfo (σ : Type) where
  holder : Nat
  args : List (Value σ)

/-- The operator `args[i]`: the undefined value beyond the last argument. -/
def FunctionCallbackInfo.get {σ : Type} (args : FunctionCallbackInfo σ) (i : Nat) : Value σ :=
  args.args.getD i Value.undefined

/-- The lookups of the native request and the numeric conversion of the
runtime, which are outside this file and taken as given: `getHeader(name)`,
`getQuery(key)`, `getParameter(index)` of `uWS::HttpRequest`, and
`Uint32Value(context).ToChecked()` of a script value. -/
structure Env (σ : Type) where
  getHeader : HttpRequest → Bytes → Bytes
  getQuery : HttpRequest → Bytes → Bytes
  getParameter : HttpRequest → Int → Bytes
  Uint32Value : Value σ → Nat

/-- The conversion `BooleanValue(isolate)`: the truthiness of a value. -/
def BooleanValue {σ : Type} : Value σ → Bool
  | .undefined => false
  | .boolean b => b
  | .number n => n != 0
  | .string s => !s.isEmpty
  | .function _ => true
  | .object _ => true

/-- The initialisation `int index = <uint32_t>`: the value read as a signed
32-bit integer. -/
def toInt32 (u : Nat) : Int :=
  if u % 2 ^ 32 < 2 ^ 31 then (u % 2 ^ 32 : Nat) else (u % 2 ^ 32 : Nat) - 2 ^ 32

/-- Modelled from the spec: the constructor of `NativeString` of Utilities.h,
which is not among the sources.  A text argument converts to its bytes; an
argument that is not text cannot be converted, which leaves the native string
invalid (`none`). -/
def NativeString {σ : Type} : Value σ → Option Bytes
  | .string s => some (encodeUtf8 s)
  | _ => none

/-- The bytes of a native string, `getString()`. -/
def getString (data : Option Bytes) : Bytes :=
  data.getD []

/-! ## The accessors -/

/-- Unwraps the native request from the wrapper object: reads internal field 0
and, when it is null, throws and sets the return value to what
`ThrowException` returns (the undefined value).  Gives the world, the return
value so far and the pointer. -/
def getHttpRequest {σ : Type} (args : FunctionCallbackInfo σ) (w : World σ) :
    World σ × Value σ × Option Nat :=
  match w.internalField args.holder with
  | none => ({ w with exception := some ExpiredRequestError }, Value.undefined, none)
  | some req => (w, Value.undefined, some req)

/-- Modelled from the spec: `NativeString::isInvalid(args)` of Utilities.h,
which is not among the sources.  For a native string that could not be
converted it raises MarshalError, sets no return value, and answers true;
otherwise it does nothing and answers false. -/
def isInvalid {σ : Type} (data : Option Bytes) (w : World σ) : World σ × Bool :=
  match data with
  | none => ({ w with exception := some Exception.MarshalError }, true)
  | some _ => (w, false)

/-- The call `cb->Call(context, global, 2, argv)`: runs the function on the two
strings.  What is pending afterwards is what this call threw: a value it throws
becomes the pending exception, and after a normal return nothing is pending,
also when an earlier call had thrown.  What is no function is not called. -/
def Call {σ : Type} (cb : Value σ) (key value : JSString) (w : World σ) : World σ :=
  match cb with
  | .function f =>
    { w with
      script := (f w.script key value).1
      exception := (f w.script key value).2
      trace := w.trace ++ [Access.call key value (f w.script key value).2] }
  | _ => { w with exception := some Exception.NotCallable }

/-- The loop `for (auto p : *req)` of `req_forEach`: for every header in order,
both strings are made with `NewFromUtf8` and the callback is called; the
result of the call is dropped. -/
def forEachLoop {σ : Type} (cb : Value σ) : List (Bytes × Bytes) → World σ → World σ
  | [], w => w
  | p :: ps, w => forEachLoop cb ps (Call cb (NewFromUtf8 p.1) (NewFromUtf8 p.2) w)

/-- Takes function of string, string.  Sets no return value. -/
def req_forEach {σ : Type} (args : FunctionCallbackInfo σ) (w : World σ) : World σ × Value σ :=
  match getHttpRequest args w with
  | (w1, ret, none) => (w1, ret)
  | (w1, ret, some req) =>
    (forEachLoop (args.get 0) (w1.requests req).headers
      { w1 with trace := w1.trace ++ [Access.iterate req] }, ret)

/-- Takes int, returns string. -/
def req_getParameter {σ : Type} (E : Env σ) (args : FunctionCallbackInfo σ) (w : World σ) :
    World σ × Value σ :=
  match getHttpRequest args w with
  | (w1, ret, none) => (w1, ret)
  | (w1, _, some req) =>
    let index := toInt32 (E.Uint32Value (args.get 0))
    let parameter := E.getParameter (w1.requests req) index
    ({ w1 with trace := w1.trace ++ [Access.getParameter req index] },
      Value.string (NewFromUtf8 parameter))

/-- Takes nothing, returns string. -/
def req_getUrl {σ : Type} (args : FunctionCallbackInfo σ) (w : World σ) : World σ × Value σ :=
  match getHttpRequest args w with
  | (w1, ret, none) => (w1, ret)
  | (w1, _, some req) =>
    let url := (w1.requests req).url
    ({ w1 with trace := w1.trace ++ [Access.getUrl req] }, Value.string (NewFromUtf8 url))

/-- Takes String, returns String (Latin-1). -/
def req_getHeader {σ : Type} (E : Env σ) (args : FunctionCallbackInfo σ) (w : World σ) :
    World σ × Value σ :=
  match getHttpRequest args w with
  | (w1, ret, none) => (w1, ret)
  | (w1, ret, some req) =>
    let data := NativeString (args.get 0)
    match isInvalid data w1 with
    | (w2, true) => (w2, ret)
    | (w2, false) =>
      let header := E.getHeader (w2.requests req) (getString data)
      ({ w2 with trace := w2.trace ++ [Access.getHeader req (getString data)] },
        Value.string (NewFromOneByte header))

/-- Takes boolean, returns this. -/
def req_setYield {σ : Type} (args : FunctionCallbackInfo σ) (w : World σ) : World σ × Value σ :=
  match getHttpRequest args w with
  | (w1, ret, none) => (w1, ret)
  | (w1, _, some req) =>
    let yield := BooleanValue (args.get 0)
    ({ w1 with
        requests := Function.update w1.requests req { w1.requests req with yield := yield }
        trace := w1.trace ++ [Access.setYield req yield] },
      Value.object args.holder)

/-- Takes nothing, returns string. -/
def req_getMethod {σ : Type} (args : FunctionCallbackInfo σ) (w : World σ) : World σ × Value σ :=
  match getHttpRequest args w with
  | (w1, ret, none) => (w1, ret)
  | (w1, _, some req) =>
    let method := (w1.requests req).method
    ({ w1 with trace := w1.trace ++ [Access.getMethod req] }, Value.string (NewFromUtf8 method))

/-- With exactly one argument the value of that key, otherwise the whole query. -/
def req_getQuery {σ : Type} (E : Env σ) (args : FunctionCallbackInfo σ) (w : World σ) :
    World σ × Value σ :=
  match getHttpRequest args w with
  | (w1, ret, none) => (w1, ret)
  | (w1, ret, some req) =>
    if args.args.length = 1 then
      let keyString := NativeString (args.get 0)
      match isInvalid keyString w1 with
      | (w2, true) => (w2, ret)
      | (w2, false) =>
        let query := E.getQuery (w2.requests req) (getString keyString)
        ({ w2 with trace := w2.trace ++ [Access.getQueryKey req (getString keyString)] },
          Value.string (NewFromUtf8 query))
    else
      let query := (w1.requests req).query
      ({ w1 with trace := w1.trace ++ [Access.getQuery req] }, Value.string (NewFromUtf8 query))

/-- The functions registered on the prototype of the wrapper object, by name. -/
def init {σ : Type} (E : Env σ) :
    List (String × (FunctionCallbackInfo σ → World σ → World σ × Value σ)) :=
  [("getHeader", req_getHeader E),
   ("getParameter", req_getParameter E),
   ("getUrl", req_getUrl),
   ("getMethod", req_getMethod),
   ("getQuery", req_getQuery E),
   ("forEach", req_forEach),
   ("setYield", req_setYield)]

/-! ## Reading the trace -/

/-- The arguments of a callback invocation recorded in the trace. -/
def Access.invocation : Access → Option (JSString × JSString)
  | .call key value _ => some (key, value)
  | _ => none

/-- The value thrown by a callback invocation recorded in the trace. -/
def Access.raised : Access → Option Exception
  | .call _ _ r => r
  | _ => none

/-- The callback invocations of a trace, in order. -/
def invocations (t : List Access) : List (JSString × JSString) :=
  t.filterMap Access.invocation

/-! ## A sample native side, for worked examples -/

/-- ASCII lower case of a byte. -/
def toLower (b : Byte) : Byte :=
  if 65 ≤ b.val ∧ b.val ≤ 90 then Fin.ofNat (b.val + 32) else b

/-- Modelled from the spec: the header lookup of the native request, which is
outside the sources: case-insensitive match, the value of the first match, and
the empty span when the header is absent. -/
def sampleGetHeader (r : HttpRequest) (name : Bytes) : Bytes :=
  match r.headers.find? (fun h => h.1.map toLower == name.map toLower) with
  | some h => h.2
  | none => []

/-- Splits a byte sequence at every occurrence of a separator. -/
def splitAt (sep : Byte) : Bytes → List Bytes
  | [] => [[]]
  | b :: bs =>
    if b = sep then [] :: splitAt sep bs
    else match splitAt sep bs with
      | [] => [[b]]
      | piece :: pieces => (b :: piece) :: pieces

/-- Key and value of one piece of a query: what stands before and after the
first equals sign. -/
def keyValue (piece : Bytes) : Bytes × Bytes :=
  (piece.takeWhile (fun b => b != 61), (piece.dropWhile (fun b => b != 61)).drop 1)

/-- Modelled from the spec: the key lookup of the native request, which is
outside the sources: the first value matching the key, and the empty span when
no key matches. -/
def sampleGetQuery (r : HttpRequest) (key : Bytes) : Bytes :=
  match ((splitAt 38 r.query).map keyValue).find? (fun kv => kv.1 == key) with
  | some kv => kv.2
  | none => []

/-- Modelled from the spec: the indexed path parameter of the native request,
which is outside the sources. -/
def sampleGetParameter (r : HttpRequest) (index : Int) : Bytes :=
  if 0 ≤ index then r.parameters.getD index.toNat [] else []

/-- A native side for the worked examples; its numeric conversion covers
numbers and booleans. -/
def sampleEnv (σ : Type) : Env σ where
  getHeader := sampleGetHeader
  getQuery := sampleGetQuery
  getParameter := sampleGetParameter
  Uint32Value := fun v =>
    match v with
    | .number n => (n % 2 ^ 32).toNat
    | .boolean true => 1
    | _ => 0

/-- A request: GET /user/42?a=1&b=2 with three headers, two of them under the
same key, and one path parameter. -/
def sampleRequest : HttpRequest where
  method := ascii "get"
  url := ascii "/user/42"
  query := ascii "a=1&b=2"
  headers := [(ascii "a", ascii "1"), (ascii "b", ascii "2"), (ascii "a", ascii "3")]
  parameters := [ascii "42"]
  yield := false

/-- A world in which wrapper object 1 is bound to the sample request at
address 0 and every other wrapper object is unbound.  The script state is the
list of argument pairs its callbacks have seen. -/
def sampleWorld : World (List (JSString × JSString)) where
  internalField := fun o => if o = 1 then some 0 else none
  requests := fun _ => sampleRequest
  exception := none
  script := []
  trace := []

/-- A script function that records its arguments and never throws. -/
def recordArgs (st : List (JSString × JSString)) (k v : JSString) :
    List (JSString × JSString) × Option Exception :=
  (st ++ [(k, v)], none)

/-- A script function that records its arguments and throws on every
invocation: value 1 on key "a", value 2 on any other key. -/
def throwArgs (st : List (JSString × JSString)) (k v : JSString) :
    List (JSString × JSString) × Option Exception :=
  (st ++ [(k, v)], some (Exception.thrown (if k = text "a" then 1 else 2)))

/-- A script function that records its arguments and throws value 2 on key
"b" only. -/
def throwOnB (st : List (JSString × JSString)) (k v : JSString) :
    List (JSString × JSString) × Option Exception :=
  (st ++ [(k, v)], if k = text "b" then some (Exception.thrown 2) else none)

/-- What `forEach` with the throwing function adds to the trace on the sample
request. -/
def throwingTrace : List Access :=
  [Access.iterate 0,
   Access.call (text "a") (text "1") (some (Exception.thrown 1)),
   Access.call (text "b") (text "2") (some (Exception.thrown 2)),
   Access.call (text "a") (text "3") (some (Exception.thrown 1))]

/-- The recording function as a callback. -/
def recordingCallback : Value (List (JSString × JSString)) :=
  Value.function recordArgs

/-- The throwing function as a callback. -/
def throwingCallback : Value (List (JSString × JSString)) :=
  Value.function throwArgs

/-- A request whose URL and whose header value hold bytes that are not
well-formed UTF-8: the URL ends in the byte FF, the header value is the single
byte E9 (a Latin-1 e with acute accent). -/
def rawRequest : HttpRequest where
  method := ascii "get"
  url := [0x2F, 0xFF]
  query := []
  headers := [(ascii "x-name", [0xE9])]
  parameters := []
  yield := false

/-- The sample world with the raw request in place of the sample request. -/
def rawWorld : World (List (JSString × JSString)) :=
  { sampleWorld with requests := fun _ => rawRequest }

/-! ## Round trip of the validated-text conversion on well-formed input -/

theorem utf8Decode_units (c : Nat) (hc : IsScalar c) (rest : List Nat) :
    utf8Decode .accept (utf8Units c ++ rest) = c :: utf8Decode .accept rest := by
  obtain ⟨h1, h2⟩ := hc
  have d1 : c / 64 / 64 = c / 4096 := Nat.div_div_eq_div_mul c 64 64
  have d2 : c / 4096 / 64 = c / 262144 := Nat.div_div_eq_div_mul c 4096 64
  unfold utf8Units
  split_ifs with a1 a2 a3
  · simp [utf8Decode, utf8Step, utf8Start, a1]
  · have e1 : ¬ (192 + c / 64 < 128) := by omega
    have e2 : 194 ≤ 192 + c / 64 ∧ 192 + c / 64 ≤ 223 := by omega
    have e3 : 128 ≤ 128 + c % 64 ∧ 128 + c % 64 ≤ 191 := by omega
    simp [utf8Decode, utf8Step, utf8Start, e1, e2, e3]
    omega
  · have e3 : 128 ≤ 128 + c % 64 ∧ 128 + c % 64 ≤ 191 := by omega
    have e4 : 128 ≤ 128 + c / 64 % 64 ∧ 128 + c / 64 % 64 ≤ 191 := by omega
    have e1 : ¬ (224 + c / 4096 < 128) := by omega
    have e2 : ¬ (194 ≤ 224 + c / 4096 ∧ 224 + c / 4096 ≤ 223) := by omega
    by_cases k0 : c / 4096 = 0
    · have e5 : 160 ≤ 128 + c / 64 % 64 := by omega
      simp [utf8Decode, utf8Step, utf8Start, k0, e3, e4, e5]
      omega
    · by_cases k13 : c / 4096 = 13
      · have e5 : 128 + c / 64 % 64 ≤ 159 := by omega
        simp [utf8Decode, utf8Step, utf8Start, k13, e3, e4, e5]
        omega
      · have e6 : 225 ≤ 224 + c / 4096 ∧ 224 + c / 4096 ≤ 239 := by omega
        have n1 : ¬ (224 + c / 4096 = 224) := by omega
        have n2 : ¬ (224 + c / 4096 = 237) := by omega
        simp [utf8Decode, utf8Step, utf8Start, n1, n2, e1, e2, e3, e4, e6]
        omega
  · have e3 : 128 ≤ 128 + c % 64 ∧ 128 + c % 64 ≤ 191 := by omega
    have e4 : 128 ≤ 128 + c / 64 % 64 ∧ 128 + c / 64 % 64 ≤ 191 := by omega
    have e7 : 128 ≤ 128 + c / 4096 % 64 ∧ 128 + c / 4096 % 64 ≤ 191 := by omega
    have e1 : ¬ (240 + c / 262144 < 128) := by omega
    have e2 : ¬ (194 ≤ 240 + c / 262144 ∧ 240 + c / 262144 ≤ 223) := by omega
    have e8 : ¬ (225 ≤ 240 + c / 262144 ∧ 240 + c / 262144 ≤ 239) := by omega
    by_cases k0 : c / 262144 = 0
    · have e5 : 144 ≤ 128 + c / 4096 % 64 := by omega
      simp [utf8Decode, utf8Step, utf8Start, k0, e3, e4, e5, e7]
      omega
    · by_cases k4 : c / 262144 = 4
      · have e5 : 128 + c / 4096 % 64 ≤ 143 := by omega
        simp [utf8Decode, utf8Step, utf8Start, k4, e3, e4, e5, e7]
        omega
      · have e6 : 241 ≤ 240 + c / 262144 ∧ 240 + c / 262144 ≤ 243 := by omega
        have n1 : ¬ (240 + c / 262144 = 224) := by omega
        have n2 : ¬ (240 + c / 262144 = 237) := by omega
        have n3 : ¬ (240 + c / 262144 = 240) := by omega
        simp [utf8Decode, utf8Step, utf8Start, n1, n2, n3, e1, e2, e3, e4, e6, e7, e8]
        omega

theorem utf8Decode_flatMap (t : List Nat) (ht : ∀ c ∈ t, IsScalar c) :
    utf8Decode .accept (t.flatMap utf8Units) = t := by
  induction t with
  | nil => rfl
  | cons c t ih =>
    have hc : IsScalar c := ht c (List.mem_cons_self c t)
    have ht2 : ∀ d ∈ t, IsScalar d := fun d hd => ht d (List.mem_cons_of_mem c hd)
    rw [List.flatMap_cons, utf8Decode_units c hc, ih ht2]

theorem utf16Decode_units (c : Nat) (hc : IsScalar c) (rest : List Nat) :
    utf16Decode none (utf16Units c ++ rest) = c :: utf16Decode none rest := by
  obtain ⟨h1, h2⟩ := hc
  unfold utf16Units
  split_ifs with a1
  · have l1 : ¬ (55296 ≤ c ∧ c ≤ 56319) := by omega
    have l2 : ¬ (56320 ≤ c ∧ c ≤ 57343) := by omega
    simp [utf16Decode, isLead, isTrail, l1, l2]
  · have l1 : 55296 ≤ 55232 + c / 1024 ∧ 55232 + c / 1024 ≤ 56319 := by omega
    have l2 : 56320 ≤ 56320 + c % 1024 ∧ 56320 + c % 1024 ≤ 57343 := by omega
    simp [utf16Decode, isLead, isTrail, l1, l2]
    omega

theorem utf16Decode_flatMap (t : List Nat) (ht : ∀ c ∈ t, IsScalar c) :
    utf16Decode none (t.flatMap utf16Units) = t := by
  induction t with
  | nil => rfl
  | cons c t ih =>
    have hc : IsScalar c := ht c (List.mem_cons_self c t)
    have ht2 : ∀ d ∈ t, IsScalar d := fun d hd => ht d (List.mem_cons_of_mem c hd)
    rw [List.flatMap_cons, utf16Decode_units c hc, ih ht2]

theorem utf8Units_lt (c : Nat) (hc : IsScalar c) : ∀ b ∈ utf8Units c, b < 256 := by
  obtain ⟨h1, _⟩ := hc
  intro b hb
  unfold utf8Units at hb
  split_ifs at hb <;> simp at hb <;> omega

theorem utf8Bytes_val (t : List Nat) (ht : ∀ c ∈ t, IsScalar c) :
    (utf8Bytes t).map Fin.val = t.flatMap utf8Units := by
  unfold utf8Bytes
  rw [List.map_map]
  have hid : ∀ b ∈ t.flatMap utf8Units, (Fin.val ∘ (Fin.ofNat : Nat → Fin 256)) b = b := by
    intro b hb
    obtain ⟨c, hc, hbc⟩ := List.mem_flatMap.mp hb
    have hlt := utf8Units_lt c (ht c hc) b hbc
    simp [Fin.ofNat, Nat.mod_eq_of_lt hlt]
  rw [List.map_congr_left hid]
  exact List.map_id _

/-- On the UTF-8 encoding of a sequence of scalar values `NewFromUtf8` gives
the UTF-16 form of that sequence. -/
theorem NewFromUtf8_utf8Bytes (t : List Nat) (ht : ∀ c ∈ t, IsScalar c) :
    NewFromUtf8 (utf8Bytes t) = t.flatMap utf16Units := by
  unfold NewFromUtf8
  rw [utf8Bytes_val t ht, utf8Decode_flatMap t ht]

/-- Round trip of the validated-text conversion on well-formed UTF-8. -/
theorem encodeUtf8_NewFromUtf8 (data : Bytes) (h : ValidUtf8 data) :
    encodeUtf8 (NewFromUtf8 data) = data := by
  obtain ⟨t, ht, rfl⟩ := h
  unfold encodeUtf8
  rw [NewFromUtf8_utf8Bytes t ht, utf16Decode_flatMap t ht]

/-! ## The guard -/

theorem getHttpRequest_null {σ : Type} (args : FunctionCallbackInfo σ) (w : World σ)
    (hnull : w.internalField args.holder = none) :
    getHttpRequest args w
      = ({ w with exception := some ExpiredRequestError }, Value.undefined, none) := by
  simp [getHttpRequest, hnull]

theorem getHttpRequest_bound {σ : Type} (args : FunctionCallbackInfo σ) (w : World σ) (req : Nat)
    (hbound : w.internalField args.holder = some req) :
    getHttpRequest args w = (w, Value.undefined, some req) := by
  simp [getHttpRequest, hbound]

/-- C1: on a wrapper object whose internal field is null, each of the seven
registered accessors, whatever its arguments, throws ExpiredRequestError and
does nothing else: the world it leaves differs from the one it found in the
pending exception only (same native requests, hence same yield flags; same
trace, hence no native access and no callback invocation; same script state),
and the return value is the undefined value, not request data. -/
theorem unbound_accessor_raises_expired {σ : Type} (E : Env σ) (w : World σ)
    (args : FunctionCallbackInfo σ) (hnull : w.internalField args.holder = none) :
    (init E).map Prod.fst
        = ["getHeader", "getParameter", "getUrl", "getMethod", "getQuery", "forEach", "setYield"]
    ∧ ∀ m ∈ init E,
        m.2 args w = ({ w with exception := some ExpiredRequestError }, Value.undefined) := by
  refine ⟨rfl, ?_⟩
  intro m hm
  simp only [init, List.mem_cons, List.mem_singleton, List.not_mem_nil, or_false] at hm
  rcases hm with rfl | rfl | rfl | rfl | rfl | rfl | rfl
  · simp [req_getHeader, getHttpRequest_null args w hnull]
  · simp [req_getParameter, getHttpRequest_null args w hnull]
  · simp [req_getUrl, getHttpRequest_null args w hnull]
  · simp [req_getMethod, getHttpRequest_null args w hnull]
  · simp [req_getQuery, getHttpRequest_null args w hnull]
  · simp [req_forEach, getHttpRequest_null args w hnull]
  · simp [req_setYield, getHttpRequest_null args w hnull]

theorem unbound_accessor_raises_expired_witness :
    sampleWorld.internalField 2 = none
    ∧ ∀ m ∈ init (sampleEnv (List (JSString × JSString))),
        m.2 ⟨2, [recordingCallback]⟩ sampleWorld
          = ({ sampleWorld with exception := some ExpiredRequestError }, Value.undefined) :=
  ⟨rfl, (unbound_accessor_raises_expired (sampleEnv _) sampleWorld
    ⟨2, [recordingCallback]⟩ rfl).2⟩

/-! ## Validated text: method, URL, query, parameter -/

/-- C2, counterexample: the raw request holds the URL bytes 2F FF; `getUrl()` on
the wrapper bound to it returns the two code units 002F FFFD, which encode to
the four bytes 2F EF BF BD, so no encoding of the returned text gives back the
native bytes. -/
theorem getUrl_roundtrip_fails :
    rawWorld.internalField 1 = some 0
    ∧ (rawWorld.requests 0).url = [0x2F, 0xFF]
    ∧ (req_getUrl ⟨1, []⟩ rawWorld).2 = Value.string [0x2F, 0xFFFD]
    ∧ encodeUtf8 [0x2F, 0xFFFD] = [0x2F, 0xEF, 0xBF, 0xBD]
    ∧ ¬ ∃ s, (req_getUrl ⟨1, []⟩ rawWorld).2 = Value.string s
          ∧ encodeUtf8 s = (rawWorld.requests 0).url := by
  refine ⟨rfl, rfl, rfl, by decide, ?_⟩
  rintro ⟨s, hs, he⟩
  have h1 : (req_getUrl ⟨1, []⟩ rawWorld).2 = Value.string [0x2F, 0xFFFD] := rfl
  rw [h1] at hs
  cases hs
  revert he
  decide

/-- C2, amended: for every bound wrapper, whenever the bytes the native request
holds as method, URL, raw query or path parameter are well-formed UTF-8, the
text `getMethod()`, `getUrl()`, `getQuery()` or `getParameter(i)` returns
encodes back to exactly those bytes. -/
theorem validated_text_roundtrip {σ : Type} (E : Env σ) (w : World σ) (holder req : Nat)
    (i : Value σ) (hbound : w.internalField holder = some req) :
    (ValidUtf8 (w.requests req).method →
      ∃ s, (req_getMethod ⟨holder, []⟩ w).2 = Value.string s
        ∧ encodeUtf8 s = (w.requests req).method)
    ∧ (ValidUtf8 (w.requests req).url →
      ∃ s, (req_getUrl ⟨holder, []⟩ w).2 = Value.string s
        ∧ encodeUtf8 s = (w.requests req).url)
    ∧ (ValidUtf8 (w.requests req).query →
      ∃ s, (req_getQuery E ⟨holder, []⟩ w).2 = Value.string s
        ∧ encodeUtf8 s = (w.requests req).query)
    ∧ (ValidUtf8 (E.getParameter (w.requests req) (toInt32 (E.Uint32Value i))) →
      ∃ s, (req_getParameter E ⟨holder, [i]⟩ w).2 = Value.string s
        ∧ encodeUtf8 s = E.getParameter (w.requests req) (toInt32 (E.Uint32Value i))) := by
  refine ⟨fun h => ⟨_, ?_, encodeUtf8_NewFromUtf8 _ h⟩, fun h => ⟨_, ?_, encodeUtf8_NewFromUtf8 _ h⟩,
    fun h => ⟨_, ?_, encodeUtf8_NewFromUtf8 _ h⟩, fun h => ⟨_, ?_, encodeUtf8_NewFromUtf8 _ h⟩⟩
  · simp [req_getMethod, @getHttpRequest_bound σ ⟨holder, []⟩ w req hbound]
  · simp [req_getUrl, @getHttpRequest_bound σ ⟨holder, []⟩ w req hbound]
  · simp [req_getQuery, @getHttpRequest_bound σ ⟨holder, []⟩ w req hbound]
  · simp [req_getParameter, @getHttpRequest_bound σ ⟨holder, [i]⟩ w req hbound,
      FunctionCallbackInfo.get]

theorem validated_text_roundtrip_witness :
    sampleWorld.internalField 1 = some 0
    ∧ ValidUtf8 (sampleWorld.requests 0).method
    ∧ ValidUtf8 (sampleWorld.requests 0).url
    ∧ ValidUtf8 (sampleWorld.requests 0).query
    ∧ ValidUtf8 (sampleGetParameter (sampleWorld.requests 0) 0)
    ∧ (∃ s, (req_getMethod ⟨1, []⟩ sampleWorld).2 = Value.string s
        ∧ encodeUtf8 s = ascii "get")
    ∧ (∃ s, (req_getUrl ⟨1, []⟩ sampleWorld).2 = Value.string s
        ∧ encodeUtf8 s = ascii "/user/42")
    ∧ (∃ s, (req_getQuery (sampleEnv _) ⟨1, []⟩ sampleWorld).2 = Value.string s
        ∧ encodeUtf8 s = ascii "a=1&b=2")
    ∧ (∃ s, (req_getParameter (sampleEnv _) ⟨1, [Value.number 0]⟩ sampleWorld).2 = Value.string s
        ∧ encodeUtf8 s = ascii "42") :=
  have hm : ValidUtf8 (sampleWorld.requests 0).method := ⟨_, by decide, rfl⟩
  have hu : ValidUtf8 (sampleWorld.requests 0).url := ⟨_, by decide, rfl⟩
  have hq : ValidUtf8 (sampleWorld.requests 0).query := ⟨_, by decide, rfl⟩
  have hp : ValidUtf8 (sampleGetParameter (sampleWorld.requests 0) 0) :=
    ⟨[52, 50], by decide, by decide⟩
  have h := validated_text_roundtrip (sampleEnv _) sampleWorld 1 0 (Value.number 0) rfl
  ⟨rfl, hm, hu, hq, hp, h.1 hm, h.2.1 hu, h.2.2.1 hq, h.2.2.2 hp⟩

/-! ## Raw text: header values -/

theorem NewFromOneByte_getElem (data : Bytes) (i : Nat) (h : i < data.length) :
    (NewFromOneByte data)[i]? = some (data.get ⟨i, h⟩).val := by
  simp [NewFromOneByte, List.getElem?_map, List.getElem?_eq_getElem h]

/-- C3: for every bound wrapper and every text name, `getHeader(name)` leaves
the pending exception as it was (raises nothing), looks the name up once in the
native request, and returns the raw text of the span found: a text of the same
length whose i-th code unit is the i-th byte; the empty text when the span is
empty. -/
theorem getHeader_raw_text {σ : Type} (E : Env σ) (w : World σ) (holder req : Nat)
    (name : JSString) (hbound : w.internalField holder = some req) :
    (req_getHeader E ⟨holder, [Value.string name]⟩ w).1.exception = w.exception
    ∧ (req_getHeader E ⟨holder, [Value.string name]⟩ w).1.trace
        = w.trace ++ [Access.getHeader req (encodeUtf8 name)]
    ∧ ∃ s, (req_getHeader E ⟨holder, [Value.string name]⟩ w).2 = Value.string s
        ∧ s.length = (E.getHeader (w.requests req) (encodeUtf8 name)).length
        ∧ (∀ i (h : i < (E.getHeader (w.requests req) (encodeUtf8 name)).length),
            s[i]? = some ((E.getHeader (w.requests req) (encodeUtf8 name)).get ⟨i, h⟩).val)
        ∧ (E.getHeader (w.requests req) (encodeUtf8 name) = [] → s = []) := by
  have hg := @getHttpRequest_bound σ ⟨holder, [Value.string name]⟩ w req hbound
  refine ⟨?_, ?_, NewFromOneByte (E.getHeader (w.requests req) (encodeUtf8 name)), ?_, ?_, ?_, ?_⟩
  · simp [req_getHeader, hg, FunctionCallbackInfo.get, NativeString, isInvalid, getString]
  · simp [req_getHeader, hg, FunctionCallbackInfo.get, NativeString, isInvalid, getString]
  · simp [req_getHeader, hg, FunctionCallbackInfo.get, NativeString, isInvalid, getString]
  · simp [NewFromOneByte]
  · intro i h
    exact NewFromOneByte_getElem _ i h
  · intro h
    simp [h, NewFromOneByte]

theorem getHeader_raw_text_witness :
    sampleWorld.internalField 1 = some 0
    ∧ sampleGetHeader (sampleWorld.requests 0) (encodeUtf8 (text "X-Missing")) = []
    ∧ (req_getHeader (sampleEnv _) ⟨1, [Value.string (text "X-Missing")]⟩ sampleWorld).1.exception
        = none
    ∧ (req_getHeader (sampleEnv _) ⟨1, [Value.string (text "X-Missing")]⟩ sampleWorld).2
        = Value.string [] := by
  have h := getHeader_raw_text (sampleEnv _) sampleWorld 1 0 (text "X-Missing") rfl
  have hspan : sampleGetHeader (sampleWorld.requests 0) (encodeUtf8 (text "X-Missing")) = [] := by
    decide
  obtain ⟨hex, _, s, hs, _, _, hempty⟩ := h
  refine ⟨rfl, hspan, hex, ?_⟩
  rw [hs, hempty hspan]

/-! ## Iteration over the headers -/

/-- What the loop does, for any callback: it appends one callback invocation
per header to the trace, in order and with the texts of key and value as
arguments, and it leaves pending what the last invocation threw (nothing when
it returned normally); without any header the pending exception is as before. -/
theorem forEachLoop_spec {σ : Type} (f : σ → JSString → JSString → σ × Option Exception)
    (hs : List (Bytes × Bytes)) (w : World σ) :
    ∃ suffix : List Access,
      (forEachLoop (Value.function f) hs w).trace = w.trace ++ suffix
      ∧ suffix.length = hs.length
      ∧ invocations suffix = hs.map (fun h => (NewFromUtf8 h.1, NewFromUtf8 h.2))
      ∧ (forEachLoop (Value.function f) hs w).exception
          = (suffix.getLast?.map Access.raised).getD w.exception
      ∧ (forEachLoop (Value.function f) hs w).internalField = w.internalField
      ∧ (forEachLoop (Value.function f) hs w).requests = w.requests := by
  induction hs generalizing w with
  | nil => exact ⟨[], by simp [forEachLoop], rfl, rfl, by simp [forEachLoop], rfl, rfl⟩
  | cons p ps ih =>
    obtain ⟨suffix, h1, h2, h3, h4, h5, h6⟩ :=
      ih (Call (Value.function f) (NewFromUtf8 p.1) (NewFromUtf8 p.2) w)
    refine ⟨Access.call (NewFromUtf8 p.1) (NewFromUtf8 p.2)
      (f w.script (NewFromUtf8 p.1) (NewFromUtf8 p.2)).2 :: suffix, ?_, ?_, ?_, ?_, ?_, ?_⟩
    · rw [forEachLoop, h1]
      simp [Call]
    · simp [h2]
    · simp [invocations, Access.invocation] at h3 ⊢
      exact h3
    · rw [forEachLoop, h4]
      cases suffix with
      | nil => simp [Call, Access.raised]
      | cons a l =>
        rw [List.getLast?_cons_cons, List.getLast?_eq_getLast (a :: l) (List.cons_ne_nil a l)]
        rfl
    · rw [forEachLoop, h5]; rfl
    · rw [forEachLoop, h6]; rfl

/-- What the loop does for a callback that never throws: the world it leaves
differs from the one it found in the script state, which has seen every header
in order, in the trace, which has one invocation per header, and in that
nothing is pending once a call has returned. -/
theorem forEachLoop_quiet {σ : Type} (f : σ → JSString → JSString → σ × Option Exception)
    (hquiet : ∀ st k v, (f st k v).2 = none) (hs : List (Bytes × Bytes)) (w : World σ) :
    forEachLoop (Value.function f) hs w
      = { w with
          exception := match hs with
            | [] => w.exception
            | _ :: _ => none
          script := hs.foldl (fun st h => (f st (NewFromUtf8 h.1) (NewFromUtf8 h.2)).1) w.script
          trace := w.trace
            ++ hs.map (fun h => Access.call (NewFromUtf8 h.1) (NewFromUtf8 h.2) none) } := by
  induction hs generalizing w with
  | nil => simp [forEachLoop]
  | cons p ps ih =>
    rw [forEachLoop, ih]
    cases ps <;> simp [Call, hquiet]

/-- C4: for every bound wrapper and every callback that never throws,
`forEach(callback)` invokes the callback once per header of the native request,
in the order of the headers, the j-th invocation on the texts of key and value
of the j-th header: the trace grows by the start of the iteration and by
exactly these invocations, the script state is the one reached by running the
callback on them in this order, nothing is pending once a call has returned
(without any header the pending exception is as before), nothing else changes,
and no return value is set. -/
theorem forEach_invokes_each_header_in_order {σ : Type} (w : World σ) (holder req : Nat)
    (f : σ → JSString → JSString → σ × Option Exception)
    (hbound : w.internalField holder = some req)
    (hquiet : ∀ st k v, (f st k v).2 = none) :
    req_forEach ⟨holder, [Value.function f]⟩ w
      = ({ w with
            exception := match (w.requests req).headers with
              | [] => w.exception
              | _ :: _ => none
            script := (w.requests req).headers.foldl
              (fun st h => (f st (NewFromUtf8 h.1) (NewFromUtf8 h.2)).1) w.script
            trace := w.trace ++ Access.iterate req ::
              (w.requests req).headers.map
                (fun h => Access.call (NewFromUtf8 h.1) (NewFromUtf8 h.2) none) },
          Value.undefined)
    ∧ invocations ((w.requests req).headers.map
          (fun h => Access.call (NewFromUtf8 h.1) (NewFromUtf8 h.2) none))
        = (w.requests req).headers.map (fun h => (NewFromUtf8 h.1, NewFromUtf8 h.2))
    ∧ (invocations ((w.requests req).headers.map
          (fun h => Access.call (NewFromUtf8 h.1) (NewFromUtf8 h.2) none))).length
        = (w.requests req).headers.length := by
  have hg := @getHttpRequest_bound σ ⟨holder, [Value.function f]⟩ w req hbound
  have hinv : invocations ((w.requests req).headers.map
          (fun h => Access.call (NewFromUtf8 h.1) (NewFromUtf8 h.2) none))
        = (w.requests req).headers.map (fun h => (NewFromUtf8 h.1, NewFromUtf8 h.2)) := by
    generalize (w.requests req).headers = hs
    induction hs with
    | nil => rfl
    | cons p ps ih =>
      simp only [invocations, List.map_cons, List.filterMap_cons, Access.invocation] at ih ⊢
      rw [ih]
  refine ⟨?_, hinv, ?_⟩
  · simp [req_forEach, hg, FunctionCallbackInfo.get, forEachLoop_quiet f hquiet]
  · rw [hinv, List.length_map]

theorem forEach_invokes_each_header_in_order_witness :
    sampleWorld.internalField 1 = some 0
    ∧ (∀ st k v, (recordArgs st k v).2 = none)
    ∧ (sampleWorld.requests 0).headers
        = [(ascii "a", ascii "1"), (ascii "b", ascii "2"), (ascii "a", ascii "3")]
    ∧ (req_forEach ⟨1, [recordingCallback]⟩ sampleWorld).1.trace
        = [Access.iterate 0, Access.call (text "a") (text "1") none,
            Access.call (text "b") (text "2") none, Access.call (text "a") (text "3") none]
    ∧ (req_forEach ⟨1, [recordingCallback]⟩ sampleWorld).1.script
        = [(text "a", text "1"), (text "b", text "2"), (text "a", text "3")] := by
  have h := forEach_invokes_each_header_in_order sampleWorld 1 0 recordArgs rfl
    (fun _ _ _ => rfl)
  refine ⟨rfl, fun _ _ _ => rfl, rfl, ?_, ?_⟩
  · have ht := congrArg (fun r => r.1.trace) h.1
    exact ht.trans (by decide)
  · have ht := congrArg (fun r => r.1.script) h.1
    exact ht.trans (by decide)

/-- C10: for every bound wrapper and every callback, throwing or not,
`forEach(callback)` invokes the callback once per header of the native request,
in order: after the start of the iteration the trace grows by exactly as many
entries as there are headers, and the invocations among them are the texts of
key and value of the headers in order. -/
theorem forEach_never_stops_early {σ : Type} (w : World σ) (holder req : Nat)
    (f : σ → JSString → JSString → σ × Option Exception)
    (hbound : w.internalField holder = some req) :
    ∃ suffix : List Access,
      (req_forEach ⟨holder, [Value.function f]⟩ w).1.trace
          = w.trace ++ Access.iterate req :: suffix
      ∧ suffix.length = (w.requests req).headers.length
      ∧ invocations suffix
          = (w.requests req).headers.map (fun h => (NewFromUtf8 h.1, NewFromUtf8 h.2))
      ∧ (invocations suffix).length = (w.requests req).headers.length := by
  have hg := @getHttpRequest_bound σ ⟨holder, [Value.function f]⟩ w req hbound
  obtain ⟨suffix, h1, h2, h3, _⟩ := forEachLoop_spec f (w.requests req).headers
    { w with trace := w.trace ++ [Access.iterate req] }
  refine ⟨suffix, ?_, h2, h3, ?_⟩
  · simp [req_forEach, hg, FunctionCallbackInfo.get, h1]
  · rw [h3, List.length_map]

theorem forEach_never_stops_early_witness :
    sampleWorld.internalField 1 = some 0
    ∧ (req_forEach ⟨1, [throwingCallback]⟩ sampleWorld).1.script
        = [(text "a", text "1"), (text "b", text "2"), (text "a", text "3")]
    ∧ ∃ suffix : List Access,
        (req_forEach ⟨1, [throwingCallback]⟩ sampleWorld).1.trace
            = sampleWorld.trace ++ Access.iterate 0 :: suffix
        ∧ suffix.length = 3
        ∧ invocations suffix
            = [(text "a", text "1"), (text "b", text "2"), (text "a", text "3")]
        ∧ (invocations suffix).length = 3 :=
  ⟨rfl, by decide,
    forEach_never_stops_early sampleWorld 1 0 throwArgs rfl⟩

/-- C5, the code at the failing input: the raw request has the header x-name
with the one-byte value E9.  `getHeader("x-name")` returns the raw text of the
value, the single code unit 00E9, but `forEach` hands the callback the
validated text of the same value, the single code unit FFFD. -/
theorem forEach_value_is_validated_text :
    rawWorld.internalField 1 = some 0
    ∧ (rawWorld.requests 0).headers = [(ascii "x-name", [0xE9])]
    ∧ NewFromOneByte [0xE9] = [0xE9]
    ∧ (req_getHeader (sampleEnv _) ⟨1, [Value.string (text "x-name")]⟩ rawWorld).2
        = Value.string [0xE9]
    ∧ invocations (req_forEach ⟨1, [recordingCallback]⟩ rawWorld).1.trace
        = [(text "x-name", [0xFFFD])]
    ∧ (req_forEach ⟨1, [recordingCallback]⟩ rawWorld).1.script
        = [(text "x-name", [0xFFFD])] := by
  refine ⟨rfl, rfl, rfl, rfl, ?_, ?_⟩ <;> decide

/-- C8, the code at the failing inputs, both on the sample request.  A callback
that throws value 2 on the second header only: the loop goes on, the third
invocation returns normally, and `forEach` ends with nothing pending and no
return value, so it returns normally and the error is swallowed.  A callback
that throws value 1, 2, 1 on the three headers: `forEach` ends with value 1
pending, the error of the second invocation is replaced. -/
theorem forEach_swallows_earlier_error :
    sampleWorld.internalField 1 = some 0
    ∧ (req_forEach ⟨1, [Value.function throwOnB]⟩ sampleWorld).1.trace
        = [Access.iterate 0,
            Access.call (text "a") (text "1") none,
            Access.call (text "b") (text "2") (some (Exception.thrown 2)),
            Access.call (text "a") (text "3") none]
    ∧ (req_forEach ⟨1, [Value.function throwOnB]⟩ sampleWorld).1.exception = none
    ∧ (req_forEach ⟨1, [throwingCallback]⟩ sampleWorld).1.trace = throwingTrace
    ∧ (req_forEach ⟨1, [throwingCallback]⟩ sampleWorld).1.exception
        = some (Exception.thrown 1)
    ∧ (req_forEach ⟨1, [throwingCallback]⟩ sampleWorld).1.exception
        ≠ some (Exception.thrown 2) := by
  refine ⟨rfl, ?_, ?_, ?_, ?_, ?_⟩ <;> decide

/-! ## The query, the yield flag, and the order of the checks -/

/-- C6: for every bound wrapper `getQuery` is dispatched by the number of
arguments alone.  With no argument (and with any number of arguments other
than one) it reads the whole raw query and returns its text.  With exactly one
argument it never reads the whole query, whatever the argument is: it converts
the argument and, when that is a text key, returns the text of the native key
lookup for the bytes of the key. -/
theorem getQuery_dispatch_by_count {σ : Type} (E : Env σ) (w : World σ) (holder req : Nat)
    (hbound : w.internalField holder = some req) :
    req_getQuery E ⟨holder, []⟩ w
        = ({ w with trace := w.trace ++ [Access.getQuery req] },
            Value.string (NewFromUtf8 (w.requests req).query))
    ∧ (∀ xs : List (Value σ), xs.length ≠ 1 →
        req_getQuery E ⟨holder, xs⟩ w
          = ({ w with trace := w.trace ++ [Access.getQuery req] },
              Value.string (NewFromUtf8 (w.requests req).query)))
    ∧ (∀ key : JSString,
        req_getQuery E ⟨holder, [Value.string key]⟩ w
          = ({ w with trace := w.trace ++ [Access.getQueryKey req (encodeUtf8 key)] },
              Value.string (NewFromUtf8 (E.getQuery (w.requests req) (encodeUtf8 key)))))
    ∧ (∀ x : Value σ,
        req_getQuery E ⟨holder, [x]⟩ w
          = match NativeString x with
            | some keyString =>
              ({ w with trace := w.trace ++ [Access.getQueryKey req keyString] },
                Value.string (NewFromUtf8 (E.getQuery (w.requests req) keyString)))
            | none => ({ w with exception := some Exception.MarshalError }, Value.undefined)) := by
  refine ⟨?_, ?_, ?_, ?_⟩
  · simp [req_getQuery, @getHttpRequest_bound σ ⟨holder, []⟩ w req hbound]
  · intro xs hxs
    simp [req_getQuery, @getHttpRequest_bound σ ⟨holder, xs⟩ w req hbound, hxs]
  · intro key
    simp [req_getQuery, @getHttpRequest_bound σ ⟨holder, [Value.string key]⟩ w req hbound,
      FunctionCallbackInfo.get, NativeString, isInvalid, getString]
  · intro x
    simp only [req_getQuery, @getHttpRequest_bound σ ⟨holder, [x]⟩ w req hbound,
      FunctionCallbackInfo.get, List.length_singleton, if_true, List.getD_cons_zero]
    cases NativeString x <;> simp [isInvalid, getString]

theorem getQuery_dispatch_by_count_witness :
    sampleWorld.internalField 1 = some 0
    ∧ (sampleWorld.requests 0).query = ascii "a=1&b=2"
    ∧ (req_getQuery (sampleEnv _) ⟨1, []⟩ sampleWorld).2 = Value.string (text "a=1&b=2")
    ∧ (req_getQuery (sampleEnv _) ⟨1, [Value.string (text "a")]⟩ sampleWorld).2
        = Value.string (text "1")
    ∧ (req_getQuery (sampleEnv _) ⟨1, [Value.string (text "c")]⟩ sampleWorld).2
        = Value.string (text "") := by
  have h := getQuery_dispatch_by_count (sampleEnv _) sampleWorld 1 0 rfl
  refine ⟨rfl, rfl, ?_, ?_, ?_⟩
  · rw [h.1]
    exact congrArg Value.string (by decide)
  · rw [h.2.2.1 (text "a")]
    exact congrArg Value.string (by decide)
  · rw [h.2.2.1 (text "c")]
    exact congrArg Value.string (by decide)

/-- C7: for every bound wrapper and every boolean flag, `setYield(flag)` leaves
the yield flag of the native request equal to the flag, returns the wrapper
object itself, and changes nothing else: method, URL, query, headers and
parameters of the request, every other native request, the internal field of
every wrapper object, the pending exception and the script state are as
before. -/
theorem setYield_frame {σ : Type} (w : World σ) (holder req : Nat) (flag : Bool)
    (hbound : w.internalField holder = some req) :
    ((req_setYield ⟨holder, [Value.boolean flag]⟩ w).1.requests req).yield = flag
    ∧ (req_setYield ⟨holder, [Value.boolean flag]⟩ w).2 = Value.object holder
    ∧ ((req_setYield ⟨holder, [Value.boolean flag]⟩ w).1.requests req).method
        = (w.requests req).method
    ∧ ((req_setYield ⟨holder, [Value.boolean flag]⟩ w).1.requests req).url
        = (w.requests req).url
    ∧ ((req_setYield ⟨holder, [Value.boolean flag]⟩ w).1.requests req).query
        = (w.requests req).query
    ∧ ((req_setYield ⟨holder, [Value.boolean flag]⟩ w).1.requests req).headers
        = (w.requests req).headers
    ∧ ((req_setYield ⟨holder, [Value.boolean flag]⟩ w).1.requests req).parameters
        = (w.requests req).parameters
    ∧ (∀ a, a ≠ req →
        (req_setYield ⟨holder, [Value.boolean flag]⟩ w).1.requests a = w.requests a)
    ∧ (req_setYield ⟨holder, [Value.boolean flag]⟩ w).1.internalField = w.internalField
    ∧ (req_setYield ⟨holder, [Value.boolean flag]⟩ w).1.exception = w.exception
    ∧ (req_setYield ⟨holder, [Value.boolean flag]⟩ w).1.script = w.script := by
  have hrun : req_setYield ⟨holder, [Value.boolean flag]⟩ w
      = ({ w with
            requests := Function.update w.requests req { w.requests req with yield := flag }
            trace := w.trace ++ [Access.setYield req flag] },
          Value.object holder) := by
    simp [req_setYield, @getHttpRequest_bound σ ⟨holder, [Value.boolean flag]⟩ w req hbound,
      FunctionCallbackInfo.get, BooleanValue]
  rw [hrun]
  refine ⟨?_, rfl, ?_, ?_, ?_, ?_, ?_, ?_, rfl, rfl, rfl⟩
  · simp
  · simp
  · simp
  · simp
  · simp
  · simp
  · intro a ha
    simp [Function.update_noteq ha]

theorem setYield_frame_witness :
    sampleWorld.internalField 1 = some 0
    ∧ (sampleWorld.requests 0).yield = false
    ∧ ((req_setYield ⟨1, [Value.boolean true]⟩ sampleWorld).1.requests 0).yield = true :=
  ⟨rfl, rfl, (setYield_frame sampleWorld 1 0 true rfl).1⟩

/-- C9: the check of the internal field comes first and the conversion of the
argument second.  For an argument that cannot be converted to text,
`getHeader(x)` and one-argument `getQuery(x)` on a bound wrapper throw
MarshalError, make no native lookup (the trace is as before) and set no return
value; on an unbound wrapper they throw ExpiredRequestError instead, again
with nothing else changed. -/
theorem liveness_before_conversion {σ : Type} (E : Env σ) (w : World σ) (holder : Nat)
    (x : Value σ) (hx : NativeString x = none) :
    (∀ req, w.internalField holder = some req →
      req_getHeader E ⟨holder, [x]⟩ w
          = ({ w with exception := some Exception.MarshalError }, Value.undefined)
      ∧ req_getQuery E ⟨holder, [x]⟩ w
          = ({ w with exception := some Exception.MarshalError }, Value.undefined))
    ∧ (w.internalField holder = none →
      req_getHeader E ⟨holder, [x]⟩ w
          = ({ w with exception := some ExpiredRequestError }, Value.undefined)
      ∧ req_getQuery E ⟨holder, [x]⟩ w
          = ({ w with exception := some ExpiredRequestError }, Value.undefined)) := by
  refine ⟨fun req hbound => ⟨?_, ?_⟩, fun hnull => ⟨?_, ?_⟩⟩
  · simp [req_getHeader, @getHttpRequest_bound σ ⟨holder, [x]⟩ w req hbound,
      FunctionCallbackInfo.get, hx, isInvalid]
  · simp [req_getQuery, @getHttpRequest_bound σ ⟨holder, [x]⟩ w req hbound,
      FunctionCallbackInfo.get, hx, isInvalid]
  · simp [req_getHeader, @getHttpRequest_null σ ⟨holder, [x]⟩ w hnull]
  · simp [req_getQuery, @getHttpRequest_null σ ⟨holder, [x]⟩ w hnull]

theorem liveness_before_conversion_witness :
    NativeString (Value.number 7 : Value (List (JSString × JSString))) = none
    ∧ sampleWorld.internalField 1 = some 0
    ∧ sampleWorld.internalField 2 = none
    ∧ (req_getHeader (sampleEnv _) ⟨1, [Value.number 7]⟩ sampleWorld).1.exception
        = some Exception.MarshalError
    ∧ (req_getHeader (sampleEnv _) ⟨1, [Value.number 7]⟩ sampleWorld).1.trace = []
    ∧ (req_getQuery (sampleEnv _) ⟨1, [Value.number 7]⟩ sampleWorld).1.exception
        = some Exception.MarshalError
    ∧ (req_getQuery (sampleEnv _) ⟨1, [Value.number 7]⟩ sampleWorld).1.trace = []
    ∧ (req_getHeader (sampleEnv _) ⟨2, [Value.number 7]⟩ sampleWorld).1.exception
        = some ExpiredRequestError
    ∧ (req_getQuery (sampleEnv _) ⟨2, [Value.number 7]⟩ sampleWorld).1.exception
        = some ExpiredRequestError := by
  have hb := (liveness_before_conversion (sampleEnv _) sampleWorld 1 (Value.number 7) rfl).1
    0 rfl
  have hu := (liveness_before_conversion (sampleEnv _) sampleWorld 2 (Value.number 7) rfl).2
    rfl
  refine ⟨rfl, rfl, rfl, ?_, ?_, ?_, ?_, ?_, ?_⟩
  · rw [hb.1]
  · rw [hb.1]; rfl
  · rw [hb.2]
  · rw [hb.2]; rfl
  · rw [hu.1]
  · rw [hu.2]

end HttpRequestWrapper
